import Mathlib

/-!
Verification of the GBC compliance-tracking portal core: the assessment
state machine (`Quiz` component) and the compliance/expiry computation
(`AdminDashboard.stats`), shallowly embedded from the TypeScript source.

Modelling conventions:
* JS timestamps are integer milliseconds since the epoch (`Int`).  An
  unparseable date string produces a JS `Invalid Date`, whose `getTime()`
  is `NaN`; we model the parse result of a stored date string as
  `Option Int`, with `none` standing for `NaN`.  Every JS numeric
  comparison against `NaN` is `false`.
* `Date.setHours(0,0,0,0)` clears the sub-day component; we model it as
  flooring to a multiple of `msPerDay` (a UTC day model: `setDate(+365)`
  then adds exactly `365 * msPerDay`).
* React component state is an explicit state record, and the UI event
  callbacks are pure transition functions over it.  `setTimeout`
  callbacks are modelled by counters of queued callbacks plus explicit
  timer-firing events.
-/

namespace GBC

/-- Milliseconds in one civil day. -/
def msPerDay : Int := 86400000

/-- `d.setHours(0,0,0,0)` in the UTC day model: floor the timestamp to the
start of its day. -/
def dayFloor (t : Int) : Int := msPerDay * Int.fdiv t msPerDay

/-- A stored `TestResult` as the compliance evaluator in
`AdminDashboard.stats` reads it.  `date` is the result of parsing the
stored date string (`new Date(r.date).getTime()`): `none` models an
unparseable string (JS `Invalid Date`, `getTime() = NaN`).  The other
stored fields (`id`, `totalQuestions`, ...) are never read by `stats`
and are omitted. -/
structure ResultRecord where
  date : Option Int
  score : Int
  passed : Bool
deriving DecidableEq

/-- The derived per-member view computed by `AdminDashboard.stats`.
`lastSuccessDate`: `none` models JS `null` (no passing record);
`some none` models an `Invalid Date` object built from an unparseable
string; `some (some t)` a valid date. -/
structure ComplianceStatus where
  isExpired : Bool
  lastSuccessDate : Option (Option Int)
  lastScore : Int
deriving DecidableEq

/-- `z` must be strictly ordered before `x` by the comparator
`(a, b) => new Date(b.date).getTime() - new Date(a.date).getTime()`
(descending by date).  A `NaN` operand makes the comparator return `NaN`,
which a JS sort treats like `0` (keep relative order), so it never forces
a reordering. -/
def strictBefore (z x : ResultRecord) : Bool :=
  match z.date, x.date with
  | some tz, some tx => decide (tx < tz)
  | _, _ => false

/-- Stable insertion step for the descending-by-date sort: `x` is placed
before the first element not strictly ordered before it, preserving the
relative order of ties (JS `Array.prototype.sort` is stable). -/
def insertByDate (x : ResultRecord) : List ResultRecord → List ResultRecord
  | [] => [x]
  | z :: zs => if strictBefore z x then z :: insertByDate x zs else x :: z :: zs

/-- `rs.sort((a, b) => new Date(b.date).getTime() - new Date(a.date).getTime())`:
a stable sort, descending by date. -/
def sortByDateDesc : List ResultRecord → List ResultRecord
  | [] => []
  | x :: xs => insertByDate x (sortByDateDesc xs)

/-- The per-member body of `AdminDashboard.stats` (the compliance
evaluator).  `now` is the current timestamp; the source day-floors it
(`now.setHours(0,0,0,0)`) before the map.  Per member it filters the
result history to passing records, sorts descending by date, takes the
first, and compares `now >= expiryDate` where
`expiryDate = lastSuccessDate + 365 days` day-floored.  When the latest
passing record has an unparseable date, `lastSuccessDate` is an Invalid
Date (truthy), `expiryDate` is Invalid, and `now >= expiryDate` is a
`NaN` comparison, hence `false`. -/
def stats (now : Int) (results : List ResultRecord) : ComplianceStatus :=
  let today := dayFloor now
  match (sortByDateDesc (results.filter (·.passed))).head? with
  | none => { isExpired := true, lastSuccessDate := none, lastScore := 0 }
  | some r =>
      { isExpired :=
          match r.date with
          | some t => decide (dayFloor (t + 365 * msPerDay) ≤ today)
          | none => false
        lastSuccessDate := some r.date
        lastScore := r.score }

/-- JS `a || b` on numbers: an integer is falsy exactly when it is `0`. -/
def jsOrInt (a b : Int) : Int := if a = 0 then b else a

/-- The score argument `AdminDashboard.handleDownloadCertificate` passes to
`generateCertificate`: `user.lastScore || 100`. -/
def downloadCertificateScore (lastScore : Int) : Int := jsOrInt lastScore 100

/-- The parsed timestamp of a record, defaulting to `0`; used to state
order facts about records whose dates are known to parse. -/
def timeOf (r : ResultRecord) : Int := r.date.getD 0

/-- History used in witnesses: a failed attempt 10 days before a passing
one, mirroring the spec scenario. -/
def histTwo : List ResultRecord :=
  [{ date := some (10 * msPerDay), score := 40, passed := false },
   { date := some (15 * msPerDay), score := 85, passed := true }]

/-- Single-record history whose pass is at day 5 plus a sub-day offset. -/
def histOne : List ResultRecord :=
  [{ date := some (5 * msPerDay + 123), score := 90, passed := true }]

/-- History with a recent passing record whose stored score is `0`. -/
def histZeroScore : List ResultRecord :=
  [{ date := some (15 * msPerDay), score := 0, passed := true }]

/-- An assessment question, as read by the `Quiz` component. -/
structure Question where
  id : Nat
  text : String
  options : List String
  correctIndex : Nat
  explanation : String
deriving DecidableEq

/-- Outcome of one question within a session (`QuestionAttempt` in the
source; the field is named `attempts` there). -/
structure QuestionAttempt where
  questionId : Nat
  attempts : Nat
  isCorrect : Bool
deriving DecidableEq

/-- The artifact `finishQuiz` hands to `onComplete` (`TestResult` in the
`Quiz` component's types). -/
structure TestResult where
  date : Int
  score : Nat
  passed : Bool
  questionDetails : List QuestionAttempt
deriving DecidableEq

/-- The `Quiz` component's React state, plus bookkeeping for the event
loop: `pendingAdvance` counts queued `setTimeout(handleNextQuestion, 1000)`
callbacks, `pendingClear` counts queued
`setTimeout(() => setSelectedOption(null), 1000)` callbacks, `result` is
the value passed to `onComplete` (if any), and `now` is the ambient clock
used for `new Date()` at completion. -/
structure QuizState where
  shuffledQuestions : List Question
  currentIndex : Nat
  currentAttempts : Nat
  showExplanation : Bool
  selectedOption : Option Nat
  attemptsHistory : List QuestionAttempt
  testFinished : Bool
  isLoading : Bool
  result : Option TestResult
  pendingAdvance : Nat
  pendingClear : Nat
  now : Int
deriving DecidableEq

/-- Placeholder for `shuffledQuestions[currentIndex]` when the index is out
of range (JS `undefined`; never reached in rendered states). -/
def defaultQuestion : Question :=
  { id := 0, text := "", options := [], correctIndex := 0, explanation := "" }

/-- `const currentQuestion = shuffledQuestions[currentIndex]`. -/
def currentQuestion (s : QuizState) : Question :=
  s.shuffledQuestions.getD s.currentIndex defaultQuestion

/-- Number of correct attempts: `attemptsHistory.filter(a => a.isCorrect).length`. -/
def countCorrect (h : List QuestionAttempt) : Nat :=
  (h.filter (·.isCorrect)).length

/-- `finishQuiz`: mark the test finished and emit the `TestResult` with
`score = correctCount * 5` and `passed = score >= 80`. -/
def finishQuiz (s : QuizState) : QuizState :=
  { s with
    testFinished := true
    result := some
      { date := s.now
        score := countCorrect s.attemptsHistory * 5
        passed := decide (80 ≤ countCorrect s.attemptsHistory * 5)
        questionDetails := s.attemptsHistory } }

/-- `handleNextQuestion`: clear the per-question UI state, then either
advance `currentIndex` or finish the quiz. -/
def handleNextQuestion (s : QuizState) : QuizState :=
  if s.currentIndex < s.shuffledQuestions.length - 1 then
    { s with
      selectedOption := none, showExplanation := false, currentAttempts := 0
      currentIndex := s.currentIndex + 1 }
  else
    finishQuiz
      { s with selectedOption := none, showExplanation := false, currentAttempts := 0 }

/-- `handleOptionClick`: guard on `showExplanation || testFinished`, record
the selection, and resolve the attempt.  A correct answer appends a
`QuestionAttempt` with `attempts = currentAttempts + 1` and queues an
auto-advance; a first wrong answer bumps the retry counter and queues a
highlight clear; a second wrong answer appends a failed
`QuestionAttempt` and reveals the explanation. -/
def handleOptionClick (s : QuizState) (optionIndex : Nat) : QuizState :=
  if s.showExplanation || s.testFinished then s
  else
    let q := currentQuestion s
    if optionIndex = q.correctIndex then
      { s with
        selectedOption := some optionIndex
        attemptsHistory := s.attemptsHistory ++
          [{ questionId := q.id, attempts := s.currentAttempts + 1, isCorrect := true }]
        pendingAdvance := s.pendingAdvance + 1 }
    else if s.currentAttempts = 0 then
      { s with
        selectedOption := some optionIndex
        currentAttempts := 1
        pendingClear := s.pendingClear + 1 }
    else
      { s with
        selectedOption := some optionIndex
        attemptsHistory := s.attemptsHistory ++
          [{ questionId := q.id, attempts := 2, isCorrect := false }]
        showExplanation := true }

/-- `fetchQuestions` success path: when the bank is non-empty, shuffle it
(`shuffled` is whichever permutation the biased comparator shuffle
produced) and keep the first 20; an empty bank leaves the initial empty
question list untouched. -/
def fetchQuestions (bank shuffled : List Question) : List Question :=
  if bank.length > 0 then shuffled.take 20 else []

/-- Component state after mount and a completed fetch: React initial state
with `shuffledQuestions` set by `fetchQuestions` and `isLoading` cleared by
the `finally` block. -/
def initQuiz (bank shuffled : List Question) (now : Int) : QuizState :=
  { shuffledQuestions := fetchQuestions bank shuffled
    currentIndex := 0
    currentAttempts := 0
    showExplanation := false
    selectedOption := none
    attemptsHistory := []
    testFinished := false
    isLoading := false
    result := none
    pendingAdvance := 0
    pendingClear := 0
    now := now }

/-- The three views the component can render: the loading guard, the
result view, and the question (Presenting) view. -/
inductive QuizView where
  | loading
  | resultView
  | presenting
deriving DecidableEq

/-- The component's render guard:
`if (isLoading || shuffledQuestions.length === 0) return Loading;
if (testFinished) return Result; else Presenting`. -/
def render (s : QuizState) : QuizView :=
  if s.isLoading || s.shuffledQuestions.length = 0 then QuizView.loading
  else if s.testFinished then QuizView.resultView
  else QuizView.presenting

/-- Discrete events driving the component: a click on an option button, a
click on the explanation's Continue button, and the firing of the two
kinds of queued timeouts. -/
inductive QuizEvent where
  | click (optionIndex : Nat)
  | continueClick
  | advanceTimer
  | clearTimer
deriving DecidableEq

/-- One event-loop step. -/
def step (s : QuizState) : QuizEvent → QuizState
  | QuizEvent.click i => handleOptionClick s i
  | QuizEvent.continueClick => handleNextQuestion s
  | QuizEvent.advanceTimer =>
      handleNextQuestion { s with pendingAdvance := s.pendingAdvance - 1 }
  | QuizEvent.clearTimer =>
      { s with selectedOption := none, pendingClear := s.pendingClear - 1 }

/-- Whether an event can physically occur: option buttons exist only in the
Presenting view and are `disabled` while the explanation shows; the
Continue button exists only while the explanation shows; a timer can fire
only if a matching timeout is queued. -/
def validEvent (s : QuizState) : QuizEvent → Bool
  | QuizEvent.click _ =>
      decide (render s = QuizView.presenting) && !s.showExplanation
  | QuizEvent.continueClick =>
      decide (render s = QuizView.presenting) && s.showExplanation
  | QuizEvent.advanceTimer => decide (0 < s.pendingAdvance)
  | QuizEvent.clearTimer => decide (0 < s.pendingClear)

/-- A disciplined (prompt) event: user actions happen only once all queued
timeouts have fired, i.e. outside the 1-second feedback windows. -/
def promptEvent (s : QuizState) : QuizEvent → Bool
  | QuizEvent.click _ => decide (s.pendingAdvance = 0) && decide (s.pendingClear = 0)
  | QuizEvent.continueClick => decide (s.pendingAdvance = 0) && decide (s.pendingClear = 0)
  | QuizEvent.advanceTimer => true
  | QuizEvent.clearTimer => true

/-- Run a trace of events. -/
def run (s : QuizState) : List QuizEvent → QuizState
  | [] => s
  | e :: es => run (step s e) es

/-- Every event of the trace is physically possible when it occurs. -/
def validTrace (s : QuizState) : List QuizEvent → Bool
  | [] => true
  | e :: es => validEvent s e && validTrace (step s e) es

/-- Every event is physically possible and user actions are prompt. -/
def promptTrace (s : QuizState) : List QuizEvent → Bool
  | [] => true
  | e :: es => validEvent s e && promptEvent s e && promptTrace (step s e) es

/-- The question ids of a list of attempts. -/
def qids (l : List QuestionAttempt) : List Nat := l.map (·.questionId)

/-- The ids of a list of questions. -/
def pids (l : List Question) : List Nat := l.map (·.id)

/-- The spec's session score formula `round(100 * correctCount / n)` for
`n` presented questions, with `Math.round` (half away from zero on
non-negative input) realized as `floor((100 * c + n / 2 ... )`; computed on
naturals as `(200 * c + n) / (2 * n)`. -/
def specRoundScore (c n : Nat) : Nat := (200 * c + n) / (2 * n)

/-- One-question bank used in concrete runs. -/
def bankOne : List Question :=
  [{ id := 1, text := "q", options := ["a", "b"], correctIndex := 0,
     explanation := "e" }]

/-- A complete disciplined session over `bankOne`: answer correctly, let
the auto-advance fire. -/
def demoTrace : List QuizEvent := [QuizEvent.click 0, QuizEvent.advanceTimer]

/-- The result `demoTrace` produces from `bankOne`. -/
def resOne : TestResult :=
  { date := 0, score := 5, passed := false
    questionDetails := [{ questionId := 1, attempts := 1, isCorrect := true }] }

/-- Session-state invariant, motion of the `Quiz` machine under disciplined
traces: phase A (current question unresolved), phase B (resolved, advance
queued), phase C (resolved, explanation shown). -/
def InvA (P : List Question) (s : QuizState) : Prop :=
  qids s.attemptsHistory = pids (P.take s.currentIndex) ∧
  s.pendingAdvance = 0 ∧ s.showExplanation = false ∧
  s.currentAttempts ≤ 1 ∧ s.pendingClear ≤ 1 ∧ s.currentIndex < P.length

/-- Phase B: the current question just resolved correctly; one advance
timeout is queued. -/
def InvB (P : List Question) (s : QuizState) : Prop :=
  qids s.attemptsHistory = pids (P.take (s.currentIndex + 1)) ∧
  s.pendingAdvance = 1 ∧ s.showExplanation = false ∧
  s.pendingClear = 0 ∧ s.currentIndex < P.length

/-- Phase C: the current question resolved as a double miss; the
explanation blocks until Continue. -/
def InvC (P : List Question) (s : QuizState) : Prop :=
  qids s.attemptsHistory = pids (P.take (s.currentIndex + 1)) ∧
  s.pendingAdvance = 0 ∧ s.showExplanation = true ∧
  s.pendingClear = 0 ∧ s.currentIndex < P.length

/-- Terminal phase: one attempt per presented question was recorded and the
emitted result carries exactly that history. -/
def InvD (P : List Question) (s : QuizState) : Prop :=
  qids s.attemptsHistory = pids P ∧
  s.pendingAdvance = 0 ∧ s.pendingClear = 0 ∧ s.showExplanation = false ∧
  ∃ r, s.result = some r ∧ r.questionDetails = s.attemptsHistory

/-- The full invariant of disciplined runs. -/
def Inv (P : List Question) (s : QuizState) : Prop :=
  s.shuffledQuestions = P ∧ s.isLoading = false ∧
  ((s.testFinished = false ∧ (InvA P s ∨ InvB P s ∨ InvC P s)) ∨
   (s.testFinished = true ∧ InvD P s))

end GBC

namespace GBC

theorem insertByDate_perm (x : ResultRecord) (l : List ResultRecord) :
    List.Perm (insertByDate x l) (x :: l) := by
  induction l with
  | nil => simp [insertByDate]
  | cons z zs ih =>
    by_cases h : strictBefore z x = true
    · simp only [insertByDate, h, if_true]
      exact (List.Perm.cons z ih).trans (List.Perm.swap x z zs)
    · simp [insertByDate, h]

theorem sortByDateDesc_perm (l : List ResultRecord) :
    List.Perm (sortByDateDesc l) l := by
  induction l with
  | nil => simp [sortByDateDesc]
  | cons x xs ih =>
    exact (insertByDate_perm x (sortByDateDesc xs)).trans (List.Perm.cons x ih)

theorem mem_of_head_sortByDateDesc {l : List ResultRecord} {r : ResultRecord}
    (h : (sortByDateDesc l).head? = some r) : r ∈ l :=
  (sortByDateDesc_perm l).mem_iff.mp (List.mem_of_mem_head? h)

theorem strictBefore_of_valid {z x : ResultRecord}
    (hz : z.date.isSome) (hx : x.date.isSome) :
    strictBefore z x = decide (timeOf x < timeOf z) := by
  obtain ⟨tz, hz⟩ := Option.isSome_iff_exists.mp hz
  obtain ⟨tx, hx⟩ := Option.isSome_iff_exists.mp hx
  simp [strictBefore, timeOf, hz, hx]

/-- When every date in the list parses, the head of the descending sort
carries a maximal date. -/
theorem head_sortByDateDesc_max (l : List ResultRecord)
    (hv : ∀ x ∈ l, x.date.isSome) :
    ∀ r, (sortByDateDesc l).head? = some r → ∀ x ∈ l, timeOf x ≤ timeOf r := by
  induction l with
  | nil => intro r hr; simp [sortByDateDesc] at hr
  | cons y ys ih =>
    intro r hr x hx
    have hvy : y.date.isSome := hv y (List.mem_cons_self y ys)
    have hvys : ∀ x ∈ ys, x.date.isSome := fun x hx => hv x (List.mem_cons_of_mem y hx)
    simp only [sortByDateDesc] at hr
    cases hsy : sortByDateDesc ys with
    | nil =>
      have hnil : ys = [] := List.perm_nil.mp (hsy ▸ sortByDateDesc_perm ys).symm
      subst hnil
      rw [hsy] at hr
      simp only [insertByDate, List.head?] at hr
      have hry : r = y := (Option.some_inj.mp hr).symm
      rw [hry]
      simp at hx
      rw [hx]
    | cons z zs =>
      have hvz : z.date.isSome := hvys z (mem_of_head_sortByDateDesc (by rw [hsy]; rfl))
      have hmax : ∀ x ∈ ys, timeOf x ≤ timeOf z :=
        fun x hx => ih hvys z (by rw [hsy]; rfl) x hx
      rw [hsy] at hr
      by_cases hb : strictBefore z y = true
      · -- the old head `z` stays in front: it is the overall maximum
        simp only [insertByDate, hb, if_true, List.head?] at hr
        have hrz : r = z := (Option.some_inj.mp hr).symm
        rw [hrz]
        rcases List.mem_cons.mp hx with rfl | hmem
        · rw [strictBefore_of_valid hvz hvy] at hb
          exact le_of_lt (of_decide_eq_true hb)
        · exact hmax x hmem
      · -- `y` goes in front: it dominates the old maximum `z`
        simp only [insertByDate, hb, if_false, List.head?] at hr
        have hry : r = y := (Option.some_inj.mp hr).symm
        rw [hry]
        rcases List.mem_cons.mp hx with rfl | hmem
        · exact le_refl _
        · rw [strictBefore_of_valid hvz hvy] at hb
          have hzy : timeOf z ≤ timeOf y := le_of_not_lt (of_decide_eq_false (eq_false_of_ne_true hb))
          exact le_trans (hmax x hmem) hzy

theorem msPerDay_pos : (0 : Int) < msPerDay := by decide

/-- Day-flooring commutes with adding a whole number of days
(`setDate(getDate() + k)` in the UTC day model). -/
theorem dayFloor_add_days (t k : Int) :
    dayFloor (t + k * msPerDay) = dayFloor t + k * msPerDay := by
  have hm : (0 : Int) ≤ msPerDay := le_of_lt msPerDay_pos
  have hne : msPerDay ≠ 0 := ne_of_gt msPerDay_pos
  unfold dayFloor
  rw [Int.fdiv_eq_ediv _ hm, Int.fdiv_eq_ediv _ hm, Int.add_mul_ediv_right t k hne]
  ring

/-- C2: a passing record whose date string does not parse (JS `Invalid
Date`, `getTime() = NaN`) makes `AdminDashboard.stats` classify the member
as currently valid: `isExpired = false` with an Invalid-Date
`lastSuccessDate` — no `InvalidResultRecord` error is surfaced and the
value is silently coerced, contradicting the claim. -/
theorem invalid_date_classified_valid :
    stats 1700000000000 [{ date := none, score := 90, passed := true }] =
      { isExpired := false, lastSuccessDate := some none, lastScore := 90 } := by
  decide

/-- C3: when the latest passing record has a parseable date `t`, the
evaluator compares the day-floored now against the day-floored
`t + 365 days`, inclusively: exactly 365 day-normalized days of distance
means expired, 364 means still valid. -/
theorem expiry_boundary (now : Int) (results : List ResultRecord)
    (r : ResultRecord) (t : Int)
    (hr : (sortByDateDesc (results.filter (·.passed))).head? = some r)
    (ht : r.date = some t) :
    ((stats now results).isExpired =
        decide (dayFloor (t + 365 * msPerDay) ≤ dayFloor now)) ∧
    (dayFloor now = dayFloor t + 365 * msPerDay →
        (stats now results).isExpired = true) ∧
    (dayFloor now = dayFloor t + 364 * msPerDay →
        (stats now results).isExpired = false) := by
  have hstat : (stats now results).isExpired =
      decide (dayFloor (t + 365 * msPerDay) ≤ dayFloor now) := by
    unfold stats
    rw [hr]
    simp [ht]
  refine ⟨hstat, ?_, ?_⟩
  · intro hb
    rw [hstat, dayFloor_add_days, hb]
    simp
  · intro hb
    rw [hstat, dayFloor_add_days, hb]
    have : ¬ (dayFloor t + 365 * msPerDay ≤ dayFloor t + 364 * msPerDay) := by
      have := msPerDay_pos
      omega
    simp [this]

theorem expiry_boundary_witness :
    (stats (370 * msPerDay) histOne).isExpired = true ∧
    (stats (369 * msPerDay) histOne).isExpired = false :=
  ⟨(expiry_boundary (370 * msPerDay) histOne
      { date := some (5 * msPerDay + 123), score := 90, passed := true }
      (5 * msPerDay + 123) (by decide) (by decide)).2.1 (by decide),
   (expiry_boundary (369 * msPerDay) histOne
      { date := some (5 * msPerDay + 123), score := 90, passed := true }
      (5 * msPerDay + 123) (by decide) (by decide)).2.2 (by decide)⟩

/-- C4: the evaluator first restricts to passing records (failed records
never influence the outcome); an empty passing set gives the
never-certified status; otherwise `lastSuccessDate`/`lastScore` come from
the head of the stable descending-by-date sort, which carries the maximum
date whenever all passing dates parse. -/
theorem latest_pass_policy (now : Int) (results : List ResultRecord) :
    (results.filter (·.passed) = [] →
        stats now results =
          { isExpired := true, lastSuccessDate := none, lastScore := 0 }) ∧
    (results.filter (·.passed) ≠ [] →
        ∃ r, (sortByDateDesc (results.filter (·.passed))).head? = some r) ∧
    (stats now results = stats now (results.filter (·.passed))) ∧
    (∀ r, (sortByDateDesc (results.filter (·.passed))).head? = some r →
        r ∈ results.filter (·.passed) ∧
        (stats now results).lastSuccessDate = some r.date ∧
        (stats now results).lastScore = r.score ∧
        ((∀ x ∈ results.filter (·.passed), x.date.isSome) →
          ∀ x ∈ results.filter (·.passed), timeOf x ≤ timeOf r)) := by
  refine ⟨?_, ?_, ?_, ?_⟩
  · intro hempty
    unfold stats
    rw [hempty]
    rfl
  · intro hne
    cases hsy : sortByDateDesc (results.filter (·.passed)) with
    | nil =>
      exact absurd
        (List.perm_nil.mp
          (hsy ▸ sortByDateDesc_perm (results.filter (·.passed))).symm) hne
    | cons a as => exact ⟨a, rfl⟩
  · unfold stats
    rw [List.filter_filter]
    simp
  · intro r hr
    refine ⟨mem_of_head_sortByDateDesc hr, ?_, ?_, ?_⟩
    · unfold stats; rw [hr]
    · unfold stats; rw [hr]
    · intro hv
      exact fun x hx => head_sortByDateDesc_max _ hv r hr x hx

theorem latest_pass_policy_witness :
    stats (20 * msPerDay) histTwo =
      { isExpired := false, lastSuccessDate := some (some (15 * msPerDay)),
        lastScore := 85 } ∧
    stats (20 * msPerDay) histTwo =
      stats (20 * msPerDay) (histTwo.filter (·.passed)) :=
  ⟨by decide, (latest_pass_policy (20 * msPerDay) histTwo).2.2.1⟩

/-- C10: the certificate-download action passes `user.lastScore || 100` to
the generator, so a member displayed as not expired whose derived
`lastScore` is `0` gets a certificate claiming a score of 100, and any
member with a nonzero `lastScore` gets that score. -/
theorem certificate_score_fallback (now : Int) (results : List ResultRecord)
    (_hexp : (stats now results).isExpired = false) :
    ((stats now results).lastScore = 0 →
        downloadCertificateScore (stats now results).lastScore = 100) ∧
    ((stats now results).lastScore ≠ 0 →
        downloadCertificateScore (stats now results).lastScore =
          (stats now results).lastScore) := by
  constructor
  · intro h0
    simp [downloadCertificateScore, jsOrInt, h0]
  · intro h0
    simp [downloadCertificateScore, jsOrInt, h0]

theorem certificate_score_fallback_witness :
    (stats (20 * msPerDay) histZeroScore).isExpired = false ∧
    downloadCertificateScore (stats (20 * msPerDay) histZeroScore).lastScore = 100 :=
  ⟨by decide,
   (certificate_score_fallback (20 * msPerDay) histZeroScore (by decide)).1 (by decide)⟩

end GBC

namespace GBC

/-- `handleOptionClick` never touches the emitted result. -/
theorem handleOptionClick_result (s : QuizState) (i : Nat) :
    (handleOptionClick s i).result = s.result := by
  unfold handleOptionClick
  dsimp only
  repeat' split
  all_goals rfl

/-- Any result ever emitted satisfies the hard-coded scoring rule
`score = correctCount * 5`, `passed = score >= 80`, with
`questionDetails` equal to the history it was computed from. -/
def scoreOk (r : TestResult) : Prop :=
  r.score = countCorrect r.questionDetails * 5 ∧
  r.passed = decide (80 ≤ r.score)

theorem scoreOk_finishQuiz (s : QuizState) :
    ∀ r, (finishQuiz s).result = some r → scoreOk r := by
  intro r hr
  unfold finishQuiz at hr
  simp only at hr
  rw [← Option.some_inj.mp hr]
  exact ⟨rfl, rfl⟩

theorem scoreOk_handleNextQuestion (s : QuizState)
    (h : ∀ r, s.result = some r → scoreOk r) :
    ∀ r, (handleNextQuestion s).result = some r → scoreOk r := by
  intro r hr
  unfold handleNextQuestion at hr
  split at hr
  · exact h r hr
  · exact scoreOk_finishQuiz _ r hr

theorem scoreOk_step (s : QuizState) (e : QuizEvent)
    (h : ∀ r, s.result = some r → scoreOk r) :
    ∀ r, (step s e).result = some r → scoreOk r := by
  cases e with
  | click i =>
    intro r hr
    simp only [step] at hr
    rw [handleOptionClick_result] at hr
    exact h r hr
  | continueClick => exact scoreOk_handleNextQuestion s h
  | advanceTimer => exact scoreOk_handleNextQuestion _ h
  | clearTimer => exact h

theorem scoreOk_run (s : QuizState) (es : List QuizEvent)
    (h : ∀ r, s.result = some r → scoreOk r) :
    ∀ r, (run s es).result = some r → scoreOk r := by
  induction es generalizing s with
  | nil => exact h
  | cons e es ih => exact ih (step s e) (scoreOk_step s e h)

/-- C1 (amended): every emitted `TestResult` has
`score = correctCount * 5` (the hard-coded 5-points-per-question rule, not
`round(100 * correctCount / len(questionDetails))`) and
`passed = (score >= 80)`; the two scoring formulas agree exactly when 20
questions were presented. -/
theorem session_score (bank shuffled : List Question) (now : Int)
    (es : List QuizEvent) (r : TestResult)
    (h : (run (initQuiz bank shuffled now) es).result = some r) :
    r.score = countCorrect r.questionDetails * 5 ∧
    (r.passed = true ↔ 80 ≤ r.score) ∧
    (r.questionDetails.length = 20 →
      r.score = specRoundScore (countCorrect r.questionDetails) 20) := by
  have hok : scoreOk r := by
    refine scoreOk_run (initQuiz bank shuffled now) es ?_ r h
    intro r hr
    simp [initQuiz] at hr
  obtain ⟨hscore, hpassed⟩ := hok
  refine ⟨hscore, ?_, ?_⟩
  · rw [hpassed]
    simp
  · intro _
    rw [hscore]
    unfold specRoundScore
    omega

theorem session_score_witness :
    resOne.score = countCorrect resOne.questionDetails * 5 :=
  (session_score bankOne bankOne 0 demoTrace resOne (by decide)).1

/-- C1 (counterexample): a disciplined, completed 1-question session gets
`score = 5`, while the claimed formula
`round(100 * correctCount / len(questionDetails))` gives 100. -/
theorem short_session_score_counterexample :
    promptTrace (initQuiz bankOne bankOne 0) demoTrace = true ∧
    (run (initQuiz bankOne bankOne 0) demoTrace).result = some resOne ∧
    countCorrect resOne.questionDetails = 1 ∧
    resOne.questionDetails.length = 1 ∧
    specRoundScore 1 1 = 100 ∧
    resOne.score = 5 ∧
    resOne.score ≠ specRoundScore 1 1 := by
  decide

/-- C6: the recorded attempt policy of `handleOptionClick`: a first-try
correct answer records `attempts = 1, isCorrect = true`; a first miss
records nothing and arms the single retry; a second-try correct answer
records `attempts = 2, isCorrect = true`; a second miss records
`attempts = 2, isCorrect = false`; and any recovered (`attempts = 2`)
correct record contributes to the score exactly like a first-try one. -/
theorem two_attempt_policy (s : QuizState) (i : Nat)
    (hex : s.showExplanation = false) (hfin : s.testFinished = false) :
    (s.currentAttempts = 0 ∧ i = (currentQuestion s).correctIndex →
      (handleOptionClick s i).attemptsHistory = s.attemptsHistory ++
        [{ questionId := (currentQuestion s).id, attempts := 1, isCorrect := true }]) ∧
    (s.currentAttempts = 0 ∧ i ≠ (currentQuestion s).correctIndex →
      (handleOptionClick s i).attemptsHistory = s.attemptsHistory ∧
      (handleOptionClick s i).currentAttempts = 1) ∧
    (s.currentAttempts = 1 ∧ i = (currentQuestion s).correctIndex →
      (handleOptionClick s i).attemptsHistory = s.attemptsHistory ++
        [{ questionId := (currentQuestion s).id, attempts := 2, isCorrect := true }]) ∧
    (s.currentAttempts = 1 ∧ i ≠ (currentQuestion s).correctIndex →
      (handleOptionClick s i).attemptsHistory = s.attemptsHistory ++
        [{ questionId := (currentQuestion s).id, attempts := 2, isCorrect := false }]) ∧
    (∀ h a, countCorrect
        (h ++ [{ questionId := a, attempts := 2, isCorrect := true }]) =
      countCorrect h + 1) := by
  refine ⟨?_, ?_, ?_, ?_, ?_⟩
  · rintro ⟨h0, hc⟩
    simp [handleOptionClick, hex, hfin, hc, h0]
  · rintro ⟨h0, hc⟩
    simp [handleOptionClick, hex, hfin, hc, h0]
  · rintro ⟨h1, hc⟩
    simp [handleOptionClick, hex, hfin, hc, h1]
  · rintro ⟨h1, hc⟩
    simp [handleOptionClick, hex, hfin, hc, h1]
  · intro h a
    simp [countCorrect, List.filter_append]

theorem two_attempt_policy_witness :
    (handleOptionClick (initQuiz bankOne bankOne 0) 0).attemptsHistory =
      (initQuiz bankOne bankOne 0).attemptsHistory ++
        [{ questionId := (currentQuestion (initQuiz bankOne bankOne 0)).id,
           attempts := 1, isCorrect := true }] :=
  (two_attempt_policy (initQuiz bankOne bankOne 0) 0 (by decide) (by decide)).1
    ⟨by decide, by decide⟩

/-- C7 (failing run): `handleOptionClick` only guards on
`showExplanation || testFinished`, so a second click during the 1-second
correct-answer feedback window (a physically possible, `validTrace`
sequence: the option buttons are enabled) is processed: it appends a
duplicate `QuestionAttempt` for the same presented question, and the
finished 1-question session reports `score = 10` from two records. -/
theorem duplicate_attempt_records :
    validTrace (initQuiz bankOne bankOne 0)
      [QuizEvent.click 0, QuizEvent.click 0, QuizEvent.advanceTimer] = true ∧
    (run (initQuiz bankOne bankOne 0)
      [QuizEvent.click 0, QuizEvent.click 0, QuizEvent.advanceTimer]).result =
      some { date := 0, score := 10, passed := false,
             questionDetails :=
               [{ questionId := 1, attempts := 1, isCorrect := true },
                { questionId := 1, attempts := 1, isCorrect := true }] } := by
  decide

/-- C8 (amended): a selection submitted after the terminal state is
silently ignored: the handler returns the state unchanged (result and
accumulated `questionDetails` intact); no error value is surfaced. -/
theorem finished_submission_noop (s : QuizState) (i : Nat)
    (hfin : s.testFinished = true) :
    handleOptionClick s i = s := by
  simp [handleOptionClick, hfin]

theorem finished_submission_noop_witness :
    handleOptionClick (run (initQuiz bankOne bankOne 0) demoTrace) 0 =
      run (initQuiz bankOne bankOne 0) demoTrace :=
  finished_submission_noop (run (initQuiz bankOne bankOne 0) demoTrace) 0 (by decide)

/-- C8 (counterexample): on a concrete finished session the submission is
a no-op returning the identical state — nothing resembling a
`SessionAlreadyFinished` error reaches the caller, whose only outputs are
the state and the already-emitted result. -/
theorem finished_submission_counterexample :
    (run (initQuiz bankOne bankOne 0) demoTrace).testFinished = true ∧
    handleOptionClick (run (initQuiz bankOne bankOne 0) demoTrace) 1 =
      run (initQuiz bankOne bankOne 0) demoTrace ∧
    (run (initQuiz bankOne bankOne 0) demoTrace).result = some resOne := by
  decide

/-- C9 (counterexample): starting with an empty bank does not fail: the
fetch completes (`isLoading = false`), no error of any kind is produced
(the catch block only logs), and the component simply keeps rendering the
loading view with no result. -/
theorem empty_bank_counterexample :
    (initQuiz [] [] 0).isLoading = false ∧
    (initQuiz [] [] 0).result = none ∧
    render (initQuiz [] [] 0) = QuizView.loading := by
  decide

/-- C9 (amended): with an empty bank no event is ever possible, so the
session never enters the Presenting view and never emits a result — but
silently: no `EmptyQuestionPool` error is surfaced. -/
theorem empty_bank_stuck (shuffled : List Question) (now : Int)
    (es : List QuizEvent)
    (h : validTrace (initQuiz [] shuffled now) es = true) :
    run (initQuiz [] shuffled now) es = initQuiz [] shuffled now ∧
    render (run (initQuiz [] shuffled now) es) ≠ QuizView.presenting ∧
    (run (initQuiz [] shuffled now) es).result = none := by
  have hno : ∀ e, validEvent (initQuiz [] shuffled now) e = false := by
    intro e
    cases e <;> rfl
  cases es with
  | nil =>
    refine ⟨rfl, ?_, rfl⟩
    intro hp
    exact QuizView.noConfusion hp
  | cons e es =>
    exfalso
    simp only [validTrace, hno e, Bool.false_and] at h
    exact Bool.false_ne_true h

theorem empty_bank_stuck_witness :
    run (initQuiz [] [] 0) [] = initQuiz [] [] 0 ∧
    render (run (initQuiz [] [] 0) []) ≠ QuizView.presenting ∧
    (run (initQuiz [] [] 0) []).result = none :=
  empty_bank_stuck [] 0 [] (by decide)

end GBC

namespace GBC

theorem qids_append_one (h : List QuestionAttempt) (a : QuestionAttempt) :
    qids (h ++ [a]) = qids h ++ [a.questionId] := by
  simp [qids]

theorem pids_take_succ (P : List Question) (i : Nat) (h : i < P.length) :
    pids (P.take (i + 1)) = pids (P.take i) ++ [(P.getD i defaultQuestion).id] := by
  induction P generalizing i with
  | nil => simp at h
  | cons x xs ih =>
    cases i with
    | zero => simp [pids]
    | succ n =>
      have hn : n < xs.length := by simpa using h
      simp only [List.take_succ_cons, pids, List.map_cons, List.getD_cons_succ]
      rw [List.cons_append]
      have := ih n hn
      simp only [pids] at this
      rw [this]

theorem render_presenting {s : QuizState} (h : render s = QuizView.presenting) :
    s.isLoading = false ∧ s.shuffledQuestions.length ≠ 0 ∧ s.testFinished = false := by
  by_cases h1 : s.isLoading = true
  · exfalso
    simp [render, h1] at h
  · have h1f : s.isLoading = false := by
      cases hb : s.isLoading
      · rfl
      · exact absurd hb h1
    by_cases h2 : s.shuffledQuestions.length = 0
    · exfalso
      simp [render, h1f, h2] at h
    · by_cases h3 : s.testFinished = true
      · exfalso
        simp [render, h1f, h2, h3] at h
      · have h3f : s.testFinished = false := by
          cases hb : s.testFinished
          · rfl
          · exact absurd hb h3
        exact ⟨h1f, h2, h3f⟩

theorem handleOptionClick_eq_correct (s : QuizState) (i : Nat)
    (hex : s.showExplanation = false) (hfin : s.testFinished = false)
    (hc : i = (currentQuestion s).correctIndex) :
    handleOptionClick s i =
      { s with
        selectedOption := some i
        attemptsHistory := s.attemptsHistory ++
          [{ questionId := (currentQuestion s).id,
             attempts := s.currentAttempts + 1, isCorrect := true }]
        pendingAdvance := s.pendingAdvance + 1 } := by
  unfold handleOptionClick
  rw [hex, hfin]
  simp [hc]

theorem handleOptionClick_eq_retry (s : QuizState) (i : Nat)
    (hex : s.showExplanation = false) (hfin : s.testFinished = false)
    (hc : ¬ i = (currentQuestion s).correctIndex)
    (h0 : s.currentAttempts = 0) :
    handleOptionClick s i =
      { s with
        selectedOption := some i
        currentAttempts := 1
        pendingClear := s.pendingClear + 1 } := by
  unfold handleOptionClick
  rw [hex, hfin]
  simp [hc, h0]

theorem handleOptionClick_eq_fail (s : QuizState) (i : Nat)
    (hex : s.showExplanation = false) (hfin : s.testFinished = false)
    (hc : ¬ i = (currentQuestion s).correctIndex)
    (h0 : ¬ s.currentAttempts = 0) :
    handleOptionClick s i =
      { s with
        selectedOption := some i
        attemptsHistory := s.attemptsHistory ++
          [{ questionId := (currentQuestion s).id, attempts := 2, isCorrect := false }]
        showExplanation := true } := by
  unfold handleOptionClick
  rw [hex, hfin]
  simp [hc, h0]

theorem handleNextQuestion_eq_advance (s : QuizState)
    (h : s.currentIndex < s.shuffledQuestions.length - 1) :
    handleNextQuestion s =
      { s with
        selectedOption := none, showExplanation := false, currentAttempts := 0
        currentIndex := s.currentIndex + 1 } := by
  unfold handleNextQuestion
  rw [if_pos h]

theorem handleNextQuestion_eq_finish (s : QuizState)
    (h : ¬ s.currentIndex < s.shuffledQuestions.length - 1) :
    handleNextQuestion s =
      finishQuiz
        { s with selectedOption := none, showExplanation := false, currentAttempts := 0 } := by
  unfold handleNextQuestion
  rw [if_neg h]

end GBC

namespace GBC

/-- Each disciplined, physically possible event preserves the session
invariant. -/
theorem inv_step (P : List Question) (s : QuizState) (e : QuizEvent)
    (hinv : Inv P s) (hv : validEvent s e = true) (hp : promptEvent s e = true) :
    Inv P (step s e) := by
  obtain ⟨hq, hload, hphase⟩ := hinv
  cases e with
  | click i =>
    simp only [validEvent, Bool.and_eq_true, decide_eq_true_eq,
      Bool.not_eq_true'] at hv
    obtain ⟨hrender, hex⟩ := hv
    have hfin : s.testFinished = false := (render_presenting hrender).2.2
    simp only [promptEvent, Bool.and_eq_true, decide_eq_true_eq] at hp
    obtain ⟨hpa0, hpc0⟩ := hp
    rcases hphase with ⟨-, hA | hB | hC⟩ | ⟨hfin2, -⟩
    · obtain ⟨hh, hpa, hse, hca, hpc, hlt⟩ := hA
      by_cases hc : i = (currentQuestion s).correctIndex
      · -- correct answer: phase A to phase B
        rw [show step s (QuizEvent.click i) = handleOptionClick s i from rfl,
          handleOptionClick_eq_correct s i hex hfin hc]
        refine ⟨hq, hload, Or.inl ⟨hfin, Or.inr (Or.inl ⟨?_, ?_, hex, hpc0, hlt⟩)⟩⟩
        · dsimp only
          rw [qids_append_one, hh, pids_take_succ P s.currentIndex hlt]
          simp [currentQuestion, hq]
        · dsimp only
          omega
      · by_cases h0 : s.currentAttempts = 0
        · -- first miss: stay in phase A, retry armed
          rw [show step s (QuizEvent.click i) = handleOptionClick s i from rfl,
            handleOptionClick_eq_retry s i hex hfin hc h0]
          refine ⟨hq, hload, Or.inl ⟨hfin, Or.inl ⟨hh, hpa, hex, ?_, ?_, hlt⟩⟩⟩
          · dsimp only
            omega
          · dsimp only
            omega
        · -- second miss: phase A to phase C
          rw [show step s (QuizEvent.click i) = handleOptionClick s i from rfl,
            handleOptionClick_eq_fail s i hex hfin hc h0]
          refine ⟨hq, hload, Or.inl ⟨hfin, Or.inr (Or.inr ⟨?_, hpa, rfl, hpc0, hlt⟩)⟩⟩
          dsimp only
          rw [qids_append_one, hh, pids_take_succ P s.currentIndex hlt]
          simp [currentQuestion, hq]
    · -- phase B excluded: the advance timeout is still pending
      obtain ⟨-, hpa, -, -, -⟩ := hB
      omega
    · -- phase C excluded: the explanation is showing
      obtain ⟨-, -, hse, -, -⟩ := hC
      rw [hex] at hse
      exact Bool.noConfusion hse
    · rw [hfin] at hfin2
      exact Bool.noConfusion hfin2
  | continueClick =>
    simp only [validEvent, Bool.and_eq_true, decide_eq_true_eq] at hv
    obtain ⟨hrender, hse⟩ := hv
    have hfin : s.testFinished = false := (render_presenting hrender).2.2
    rcases hphase with ⟨-, hA | hB | hC⟩ | ⟨hfin2, -⟩
    · obtain ⟨-, -, hseA, -, -, -⟩ := hA
      rw [hseA] at hse
      exact Bool.noConfusion hse
    · obtain ⟨-, -, hseB, -, -⟩ := hB
      rw [hseB] at hse
      exact Bool.noConfusion hse
    · obtain ⟨hh, hpa, -, hpc, hlt⟩ := hC
      by_cases hlt2 : s.currentIndex < s.shuffledQuestions.length - 1
      · rw [show step s QuizEvent.continueClick = handleNextQuestion s from rfl,
          handleNextQuestion_eq_advance s hlt2]
        refine ⟨hq, hload, Or.inl ⟨hfin, Or.inl ⟨hh, hpa, rfl, ?_, ?_, ?_⟩⟩⟩
        · dsimp only
          omega
        · dsimp only
          omega
        · dsimp only
          rw [hq] at hlt2
          omega
      · rw [show step s QuizEvent.continueClick = handleNextQuestion s from rfl,
          handleNextQuestion_eq_finish s hlt2]
        have hlen : s.currentIndex + 1 = P.length := by
          rw [hq] at hlt2
          omega
        refine ⟨hq, hload, Or.inr ⟨rfl, ⟨?_, hpa, hpc, rfl, ⟨_, rfl, rfl⟩⟩⟩⟩
        show qids s.attemptsHistory = pids P
        rw [hh, hlen, List.take_length]
    · rw [hfin] at hfin2
      exact Bool.noConfusion hfin2
  | advanceTimer =>
    simp only [validEvent, decide_eq_true_eq] at hv
    rcases hphase with ⟨hfin, hA | hB | hC⟩ | ⟨-, hD⟩
    · obtain ⟨-, hpa, -, -, -, -⟩ := hA
      omega
    · obtain ⟨hh, hpa, hse, hpc, hlt⟩ := hB
      by_cases hlt2 : s.currentIndex < s.shuffledQuestions.length - 1
      · rw [show step s QuizEvent.advanceTimer =
            handleNextQuestion { s with pendingAdvance := s.pendingAdvance - 1 } from rfl,
          handleNextQuestion_eq_advance
            { s with pendingAdvance := s.pendingAdvance - 1 } hlt2]
        refine ⟨hq, hload, Or.inl ⟨hfin, Or.inl ⟨hh, ?_, rfl, ?_, ?_, ?_⟩⟩⟩
        · dsimp only
          omega
        · dsimp only
          omega
        · dsimp only
          omega
        · dsimp only
          rw [hq] at hlt2
          omega
      · rw [show step s QuizEvent.advanceTimer =
            handleNextQuestion { s with pendingAdvance := s.pendingAdvance - 1 } from rfl,
          handleNextQuestion_eq_finish
            { s with pendingAdvance := s.pendingAdvance - 1 } hlt2]
        have hlen : s.currentIndex + 1 = P.length := by
          rw [hq] at hlt2
          omega
        refine ⟨hq, hload, Or.inr ⟨rfl, ⟨?_, ?_, hpc, rfl, ⟨_, rfl, rfl⟩⟩⟩⟩
        · show qids s.attemptsHistory = pids P
          rw [hh, hlen, List.take_length]
        · show s.pendingAdvance - 1 = 0
          omega
    · obtain ⟨-, hpa, -, -, -⟩ := hC
      omega
    · obtain ⟨-, hpa, -, -, -⟩ := hD
      omega
  | clearTimer =>
    simp only [validEvent, decide_eq_true_eq] at hv
    rcases hphase with ⟨hfin, hA | hB | hC⟩ | ⟨-, hD⟩
    · obtain ⟨hh, hpa, hse, hca, hpc, hlt⟩ := hA
      refine ⟨hq, hload, Or.inl ⟨hfin, Or.inl ⟨hh, hpa, hse, hca, ?_, hlt⟩⟩⟩
      show s.pendingClear - 1 ≤ 1
      omega
    · obtain ⟨-, -, -, hpc, -⟩ := hB
      omega
    · obtain ⟨-, -, -, hpc, -⟩ := hC
      omega
    · obtain ⟨-, -, hpc, -, -⟩ := hD
      omega

end GBC

namespace GBC

/-- The invariant holds right after a successful fetch of a non-empty
bank. -/
theorem inv_init (bank shuffled : List Question) (now : Int)
    (hbank : bank ≠ []) (hperm : List.Perm shuffled bank) :
    Inv (fetchQuestions bank shuffled) (initQuiz bank shuffled now) := by
  have hlen : 0 < bank.length := List.length_pos.mpr hbank
  have hslen : shuffled.length = bank.length := hperm.length_eq
  have hfq : fetchQuestions bank shuffled = shuffled.take 20 := by
    unfold fetchQuestions
    rw [if_pos hlen]
  refine ⟨rfl, rfl, Or.inl ⟨rfl, Or.inl ⟨rfl, rfl, rfl, ?_, ?_, ?_⟩⟩⟩
  · show (0 : Nat) ≤ 1
    omega
  · show (0 : Nat) ≤ 1
    omega
  · show (0 : Nat) < (fetchQuestions bank shuffled).length
    rw [hfq, List.length_take]
    omega

theorem inv_run (P : List Question) (s : QuizState) (es : List QuizEvent)
    (hinv : Inv P s) (ht : promptTrace s es = true) : Inv P (run s es) := by
  induction es generalizing s with
  | nil => exact hinv
  | cons e es ih =>
    rw [promptTrace, Bool.and_eq_true, Bool.and_eq_true] at ht
    obtain ⟨⟨hv, hp⟩, ht⟩ := ht
    exact ih (step s e) (inv_step P s e hinv hv hp) ht

/-- C5: a completed disciplined session over a non-empty bank presents the
first `min(20, |bank|)` questions of the shuffle, and the emitted
`questionDetails` has exactly one `QuestionAttempt` per presented
question, in presentation order. -/
theorem session_question_count (bank shuffled : List Question) (now : Int)
    (es : List QuizEvent)
    (hbank : bank ≠ [])
    (hperm : List.Perm shuffled bank)
    (ht : promptTrace (initQuiz bank shuffled now) es = true)
    (hfin : (run (initQuiz bank shuffled now) es).testFinished = true) :
    (run (initQuiz bank shuffled now) es).shuffledQuestions = shuffled.take 20 ∧
    ∃ r, (run (initQuiz bank shuffled now) es).result = some r ∧
      qids r.questionDetails = pids (shuffled.take 20) ∧
      r.questionDetails.length = min 20 bank.length := by
  have hlen : 0 < bank.length := List.length_pos.mpr hbank
  have hfq : fetchQuestions bank shuffled = shuffled.take 20 := by
    unfold fetchQuestions
    rw [if_pos hlen]
  have hinv := inv_run (fetchQuestions bank shuffled) (initQuiz bank shuffled now) es
    (inv_init bank shuffled now hbank hperm) ht
  obtain ⟨hq, hload, hphase⟩ := hinv
  rcases hphase with ⟨hf, -⟩ | ⟨-, hD⟩
  · rw [hfin] at hf
    exact Bool.noConfusion hf
  · obtain ⟨hh, -, -, -, r, hr, hrd⟩ := hD
    refine ⟨by rw [hq, hfq], r, hr, ?_, ?_⟩
    · rw [hrd, hh, hfq]
    · have h1 : (qids r.questionDetails).length = (pids (fetchQuestions bank shuffled)).length := by
        rw [hrd, hh]
      simp only [qids, pids, List.length_map] at h1
      rw [h1, hfq, List.length_take, hperm.length_eq]

theorem session_question_count_witness :
    (run (initQuiz bankOne bankOne 0) demoTrace).testFinished = true ∧
    ((run (initQuiz bankOne bankOne 0) demoTrace).shuffledQuestions = bankOne.take 20 ∧
      ∃ r, (run (initQuiz bankOne bankOne 0) demoTrace).result = some r ∧
        qids r.questionDetails = pids (bankOne.take 20) ∧
        r.questionDetails.length = min 20 bankOne.length) :=
  ⟨by decide,
   session_question_count bankOne bankOne 0 demoTrace (by decide)
     (List.Perm.refl bankOne) (by decide) (by decide)⟩

end GBC
